import Mathlib

/-!
# Shallow embedding of the Inventory Management & Billing System (`fp.py`)

Products live in an insertion-ordered mapping keyed by `product_id`
(a Python `dict`); we embed the catalog as a `List Product` whose keys are
unique in all reachable states, with `find?` giving `dict` lookup.
Python `int` is `Int`, Python `float` amounts are `ℚ`.
Persistence (`save_data` / `save_sales`) is an opaque port: the embedding
models each call as always succeeding and counts the calls in the billing
state (`invWrites`, `saleWrites`), so "no file write occurs" is expressible
as the counters being unchanged.
-/

structure Product where
  product_id : String
  name : String
  price : ℚ
  stock_quantity : Int
deriving Repr, DecidableEq

structure OrderItem where
  product : Product
  quantity : Int
  total : ℚ
deriving Repr, DecidableEq

/-- Embedding of `OrderItem.__init__`: caches `total = product.price * quantity`. -/
def OrderItem.make (p : Product) (q : Int) : OrderItem :=
  ⟨p, q, p.price * q⟩

structure Sale where
  items : List OrderItem
  total_amount : ℚ
  datetime : Nat
  discount : ℚ
  final_amount : ℚ
deriving Repr, DecidableEq

/-- Embedding of `Sale.__init__`: stores the fields and computes
`final_amount = total_amount - discount`. -/
def Sale.make (items : List OrderItem) (total : ℚ) (dt : Nat) (disc : ℚ) : Sale :=
  ⟨items, total, dt, disc, total - disc⟩

namespace InventoryManager

/-- Python `str.lower()` (ASCII-adequate model via `Char.toLower`). -/
def strLower (s : String) : String :=
  ⟨s.data.map Char.toLower⟩

/-- Embedding of `self.products.get(product_id)` on the insertion-ordered dict. -/
def get_product (ps : List Product) (pid : String) : Option Product :=
  ps.find? (fun p => p.product_id = pid)

/-- Embedding of `product_id in self.products`. -/
def hasProduct (ps : List Product) (pid : String) : Bool :=
  ps.any (fun p => p.product_id = pid)

/-- In-place field mutation of the dict entry with key `pid`
(`self.products[pid].field = ...`): keys are unique in reachable states,
so mapping over all matching entries coincides with the dict update. -/
def updProduct (ps : List Product) (pid : String) (f : Product → Product) :
    List Product :=
  ps.map (fun p => if p.product_id = pid then f p else p)

/-- Embedding of `InventoryManager.add_product`: rejects a duplicate id, a price `<= 0`
and a negative stock; otherwise inserts the new product (at the end, as a
fresh `dict` key) and saves. The save is modelled as succeeding, so the
success branch returns `true`. -/
def add_product (ps : List Product) (pid name : String) (price : ℚ)
    (stock_quantity : Int) : Bool × List Product :=
  if hasProduct ps pid then (false, ps)
  else if price ≤ 0 then (false, ps)
  else if stock_quantity < 0 then (false, ps)
  else (true, ps ++ [⟨pid, name, price, stock_quantity⟩])

/-- The tail of `InventoryManager.update_product` after the optional price
assignment: validate and assign the optional stock quantity, then save. -/
def updateStockStep (ps : List Product) (pid : String) (qty : Option Int) :
    Bool × List Product :=
  match qty with
  | none => (true, ps)
  | some q =>
      if q < 0 then (false, ps)
      else (true, updProduct ps pid (fun p => { p with stock_quantity := q }))

/-- Embedding of `InventoryManager.update_product`: fails if the id is absent; otherwise
assigns the supplied fields **in order** (name, then price, then stock),
validating price and stock just before their own assignment — so a supplied
name is already assigned when a later validation fails, exactly as the
source mutates the product object field by field. -/
def update_product (ps : List Product) (pid : String) (name : Option String)
    (price : Option ℚ) (qty : Option Int) : Bool × List Product :=
  if hasProduct ps pid then
    let ps1 := match name with
      | some n => updProduct ps pid (fun p => { p with name := n })
      | none => ps
    match price with
    | some pr =>
        if pr ≤ 0 then (false, ps1)
        else updateStockStep (updProduct ps1 pid (fun p => { p with price := pr })) pid qty
    | none => updateStockStep ps1 pid qty
  else (false, ps)

/-- Embedding of `InventoryManager.delete_product`. -/
def delete_product (ps : List Product) (pid : String) : Bool × List Product :=
  if hasProduct ps pid then
    (true, ps.filter (fun p => p.product_id ≠ pid))
  else (false, ps)

/-- The match condition of `InventoryManager.search_product`:
`keyword.lower() in product.name.lower() or
 keyword.lower() == product.product_id.lower()`. -/
def matchesKeyword (keyword : String) (p : Product) : Bool :=
  decide ((strLower keyword).data <:+: (strLower p.name).data) ||
    decide (strLower keyword = strLower p.product_id)

/-- Embedding of `InventoryManager.search_product`: collects, in iteration order, the
products whose name contains the keyword or whose id equals it,
case-insensitively. -/
def search_product (ps : List Product) (keyword : String) : List Product :=
  ps.filter (matchesKeyword keyword)

end InventoryManager

/-- The mutable state of one `BillingSystem` session together with its
`InventoryManager`. `saleWrites` / `invWrites` count the calls to
`save_sales` / `save_data` (the opaque persistence port). -/
structure BillingState where
  products : List Product
  cart : List OrderItem
  sales : List Sale
  saleWrites : Nat
  invWrites : Nat
deriving Repr, DecidableEq

namespace BillingSystem

open InventoryManager

/-- Result of `BillingSystem.add_to_cart`; the four constructors are the
four print-and-return paths of the source (`False` for the first three,
`True` for the last). -/
inductive AddResult where
  | notFound
  | invalidQuantity
  | insufficientStock
  | ok
deriving Repr, DecidableEq

def AddResult.isOk : AddResult → Bool
  | .ok => true
  | _ => false

/-- The merge loop of `add_to_cart`: the first cart line whose product id
matches gets `item.quantity += quantity` and its total recomputed; returns
`none` when no line matches. -/
def cartMergeFirst (cart : List OrderItem) (pid : String) (q : Int) :
    Option (List OrderItem) :=
  match cart with
  | [] => none
  | item :: rest =>
      if item.product.product_id = pid then
        some ({ item with
                  quantity := item.quantity + q,
                  total := item.product.price * (item.quantity + q) } :: rest)
      else
        (cartMergeFirst rest pid q).map (item :: ·)

/-- Embedding of `BillingSystem.add_to_cart`: looks the product up in the catalog, then
checks `quantity <= 0`, then `product.stock_quantity < quantity` (against
this call's quantity only), then merges into an existing line or appends a
new `OrderItem`. -/
def add_to_cart (st : BillingState) (pid : String) (q : Int) :
    AddResult × BillingState :=
  match get_product st.products pid with
  | none => (.notFound, st)
  | some product =>
      if q ≤ 0 then (.invalidQuantity, st)
      else if product.stock_quantity < q then (.insufficientStock, st)
      else
        match cartMergeFirst st.cart pid q with
        | some cart1 => (.ok, { st with cart := cart1 })
        | none => (.ok, { st with cart := st.cart ++ [OrderItem.make product q] })

/-- Embedding of `BillingSystem.remove_from_cart` on the cart list: the first line whose
product id matches is removed outright when `quantity` is omitted or
`quantity >= item.quantity`, and otherwise has its quantity decremented
(with no positivity check on `quantity`) and its total recomputed. -/
def removeFromCartList (cart : List OrderItem) (pid : String)
    (q : Option Int) : Bool × List OrderItem :=
  match cart with
  | [] => (false, [])
  | item :: rest =>
      if item.product.product_id = pid then
        match q with
        | none => (true, rest)
        | some qv =>
            if item.quantity ≤ qv then (true, rest)
            else (true, { item with
                            quantity := item.quantity - qv,
                            total := item.product.price * (item.quantity - qv) } :: rest)
      else
        let r := removeFromCartList rest pid q
        (r.1, item :: r.2)

/-- Embedding of `BillingSystem.remove_from_cart` lifted to the full state (it touches
only `self.cart`). -/
def remove_from_cart (st : BillingState) (pid : String) (q : Option Int) :
    Bool × BillingState :=
  let r := removeFromCartList st.cart pid q
  (r.1, { st with cart := r.2 })

/-- Embedding of `sum(item.total for item in self.cart)`. -/
def cartTotal (cart : List OrderItem) : ℚ :=
  (cart.map OrderItem.total).sum

/-- Embedding of `BillingSystem.apply_discount`: a pure read of the cart (the source
mutates nothing here); returns the computed discount, and `0` on an empty
cart, an out-of-range value or an unknown discount type. -/
def apply_discount (cart : List OrderItem) (discount_type : String)
    (value : ℚ) : ℚ :=
  if cart = [] then 0
  else
    let total := cartTotal cart
    if discount_type = "percentage" then
      if value < 0 ∨ 100 < value then 0 else total * (value / 100)
    else if discount_type = "fixed" then
      if value < 0 ∨ total < value then 0 else value
    else 0

/-- Result of `BillingSystem.checkout`; the source returns `None` with a
distinct message on an empty cart and on an invalid discount, and the
`Sale` on success. -/
inductive CheckoutResult where
  | emptyCart
  | invalidDiscount
  | success (sale : Sale)
deriving Repr, DecidableEq

/-- The stock-adjustment loop of `checkout`:
`for item in self.cart: get_product(...).stock_quantity -= item.quantity`.
The source assumes every cart product is still in the catalog (it raises
otherwise); the embedding leaves the catalog unchanged at an absent id, and
every theorem about checkout that needs it assumes presence. -/
def decrementStock (ps : List Product) (cart : List OrderItem) :
    List Product :=
  cart.foldl
    (fun acc item =>
      updProduct acc item.product.product_id
        (fun p => { p with stock_quantity := p.stock_quantity - item.quantity }))
    ps

/-- Embedding of `BillingSystem.checkout`: fails on an empty cart, then on
`discount < 0 or discount > total`; on success snapshots the cart into a
`Sale` (with `datetime.now()` passed in as `now`), appends it to the sale
history, saves the sales file, decrements each cart line's product stock,
saves the inventory file, and clears the cart. -/
def checkout (st : BillingState) (discount : ℚ) (now : Nat) :
    CheckoutResult × BillingState :=
  if st.cart = [] then (.emptyCart, st)
  else
    let total := cartTotal st.cart
    if discount < 0 ∨ total < discount then (.invalidDiscount, st)
    else
      let sale := Sale.make st.cart total now discount
      (.success sale,
        { products := decrementStock st.products st.cart,
          cart := [],
          sales := st.sales ++ [sale],
          saleWrites := st.saleWrites + 1,
          invWrites := st.invWrites + 1 })

end BillingSystem

/-! ## Helper lemmas -/

namespace InventoryManager

theorem get_product_eq_some_pid {ps : List Product} {pid : String} {p : Product}
    (h : get_product ps pid = some p) : p.product_id = pid := by
  have := List.find?_some h
  simpa using this

theorem get_product_mem {ps : List Product} {pid : String} {p : Product}
    (h : get_product ps pid = some p) : p ∈ ps :=
  List.mem_of_find?_eq_some h

theorem get_updProduct (ps : List Product) (pid : String) (f : Product → Product)
    (hf : ∀ p, (f p).product_id = p.product_id) (pid' : String) :
    get_product (updProduct ps pid f) pid' =
      (get_product ps pid').map (fun p => if p.product_id = pid then f p else p) := by
  unfold get_product updProduct
  rw [List.find?_map]
  have hpred : ((fun p => decide (p.product_id = pid')) ∘
      fun p => if p.product_id = pid then f p else p) =
      (fun p => decide (p.product_id = pid')) := by
    funext p
    by_cases h : p.product_id = pid <;> simp [Function.comp, h, hf p]
  rw [hpred]

theorem get_updProduct_self (ps : List Product) (pid : String) (f : Product → Product)
    (hf : ∀ p, (f p).product_id = p.product_id) :
    get_product (updProduct ps pid f) pid = (get_product ps pid).map f := by
  rw [get_updProduct ps pid f hf pid]
  cases hg : get_product ps pid with
  | none => simp
  | some p => simp [get_product_eq_some_pid hg]

theorem mem_updProduct {ps : List Product} {pid : String} {f : Product → Product}
    {p' : Product} (h : p' ∈ updProduct ps pid f) :
    ∃ p ∈ ps, p' = if p.product_id = pid then f p else p := by
  simpa [updProduct, eq_comm] using h

end InventoryManager

namespace BillingSystem

open InventoryManager

/-- Total quantity the cart holds for a given product id. -/
def qtyFor (cart : List OrderItem) (pid : String) : Int :=
  ((cart.filter (fun item => item.product.product_id = pid)).map
    (fun item => item.quantity)).sum

theorem qtyFor_nil (pid : String) : qtyFor [] pid = 0 := rfl

theorem qtyFor_cons (item : OrderItem) (rest : List OrderItem) (pid : String) :
    qtyFor (item :: rest) pid =
      (if item.product.product_id = pid then item.quantity else 0) +
        qtyFor rest pid := by
  by_cases h : item.product.product_id = pid <;> simp [qtyFor, h]

theorem qtyFor_eq_zero {cart : List OrderItem} {pid : String}
    (h : ∀ item ∈ cart, item.product.product_id ≠ pid) : qtyFor cart pid = 0 := by
  induction cart with
  | nil => rfl
  | cons item rest ih =>
      rw [qtyFor_cons, if_neg (h item (List.mem_cons_self item rest)),
        ih (fun i hi => h i (List.mem_cons_of_mem item hi))]
      simp

theorem qtyFor_of_nodup {cart : List OrderItem}
    (hnd : (cart.map (fun i => i.product.product_id)).Nodup)
    {item : OrderItem} (hmem : item ∈ cart) :
    qtyFor cart item.product.product_id = item.quantity := by
  induction cart with
  | nil => cases hmem
  | cons hd rest ih =>
      rw [List.map_cons, List.nodup_cons] at hnd
      rw [qtyFor_cons]
      rcases List.mem_cons.mp hmem with heq | hmem'
      · subst heq
        have hz : qtyFor rest item.product.product_id = 0 := by
          refine qtyFor_eq_zero (fun i hi hips => ?_)
          exact hnd.1 (hips ▸ List.mem_map_of_mem (fun i => i.product.product_id) hi)
        simp [hz]
      · have hne : hd.product.product_id ≠ item.product.product_id := by
          intro he
          exact hnd.1 (he ▸ List.mem_map_of_mem (fun i => i.product.product_id) hmem')
        rw [if_neg hne, ih hnd.2 hmem']
        simp

theorem decrementStock_cons (ps : List Product) (item : OrderItem)
    (rest : List OrderItem) :
    decrementStock ps (item :: rest) =
      decrementStock
        (updProduct ps item.product.product_id
          (fun p => { p with stock_quantity := p.stock_quantity - item.quantity }))
        rest := rfl

theorem get_decrementStock (cart : List OrderItem) (ps : List Product)
    (pid : String) :
    get_product (decrementStock ps cart) pid =
      (get_product ps pid).map
        (fun p => { p with stock_quantity := p.stock_quantity - qtyFor cart pid }) := by
  induction cart generalizing ps with
  | nil =>
      cases hg : get_product ps pid <;> simp [decrementStock, qtyFor_nil, hg]
  | cons item rest ih =>
      rw [decrementStock_cons, ih,
        get_updProduct ps item.product.product_id
          (fun p => { p with stock_quantity := p.stock_quantity - item.quantity })
          (fun p => rfl) pid]
      cases hg : get_product ps pid with
      | none => simp
      | some p =>
          have hpid := get_product_eq_some_pid hg
          rw [qtyFor_cons]
          by_cases hpi : item.product.product_id = pid
          · have hcond : p.product_id = item.product.product_id := hpid.trans hpi.symm
            simp [hcond, hpi, sub_sub]
          · have hcond : ¬p.product_id = item.product.product_id :=
              fun he => hpi (he.symm.trans hpid)
            simp [hcond, hpi]

end BillingSystem

/-- All catalog stocks are non-negative. -/
def stocksNonneg (ps : List Product) : Prop :=
  ∀ p ∈ ps, 0 ≤ p.stock_quantity

instance (ps : List Product) : Decidable (stocksNonneg ps) :=
  decidable_of_iff (∀ p ∈ ps, 0 ≤ p.stock_quantity) Iff.rfl

namespace InventoryManager

theorem stocksNonneg_updProduct {ps : List Product} {pid : String}
    {f : Product → Product} (hnn : stocksNonneg ps)
    (hf : ∀ p, 0 ≤ p.stock_quantity → 0 ≤ (f p).stock_quantity) :
    stocksNonneg (updProduct ps pid f) := by
  intro p' hp'
  obtain ⟨p, hp, rfl⟩ := mem_updProduct hp'
  by_cases h : p.product_id = pid
  · simpa [h] using hf p (hnn p hp)
  · simpa [h] using hnn p hp

end InventoryManager

namespace BillingSystem

open InventoryManager

theorem decrementStock_nonneg {cart : List OrderItem} {ps : List Product}
    (hnn : stocksNonneg ps)
    (hnd : (cart.map (fun i => i.product.product_id)).Nodup)
    (hbound : ∀ item ∈ cart, ∀ p ∈ ps,
      p.product_id = item.product.product_id → item.quantity ≤ p.stock_quantity) :
    stocksNonneg (decrementStock ps cart) := by
  induction cart generalizing ps with
  | nil => exact hnn
  | cons item rest ih =>
      rw [List.map_cons, List.nodup_cons] at hnd
      rw [decrementStock_cons]
      refine ih ?_ hnd.2 ?_
      · intro p' hp'
        obtain ⟨p, hp, rfl⟩ := mem_updProduct hp'
        by_cases h : p.product_id = item.product.product_id
        · have hb := hbound item (List.mem_cons_self item rest) p hp h
          simp only [h, if_pos]
          simpa using sub_nonneg.mpr hb
        · simpa [h] using hnn p hp
      · intro it' hit' p' hp' hpid'
        obtain ⟨p, hp, rfl⟩ := mem_updProduct hp'
        by_cases h : p.product_id = item.product.product_id
        · exfalso
          apply hnd.1
          rw [if_pos h] at hpid'
          simp only at hpid'
          have : it'.product.product_id = item.product.product_id :=
            hpid'.symm.trans h
          exact this ▸ List.mem_map_of_mem (fun i => i.product.product_id) hit'
        · have hpeq : (if p.product_id = item.product.product_id then
              { p with stock_quantity := p.stock_quantity - item.quantity }
            else p) = p := if_neg h
          rw [hpeq] at hpid' ⊢
          exact hbound it' (List.mem_cons_of_mem item hit') p hp hpid'

end BillingSystem

namespace InventoryManager

theorem hasProduct_false_iff {ps : List Product} {pid : String} :
    hasProduct ps pid = false ↔ ∀ p ∈ ps, p.product_id ≠ pid := by
  simp [hasProduct]

theorem hasProduct_of_mem {ps : List Product} {pid : String} {p : Product}
    (hp : p ∈ ps) (hpid : p.product_id = pid) : hasProduct ps pid = true := by
  simp only [hasProduct, List.any_eq_true]
  exact ⟨p, hp, by simp [hpid]⟩

theorem get_product_append_new {ps : List Product} {pid : String}
    (h : ∀ p ∈ ps, p.product_id ≠ pid) (pnew : Product)
    (hnew : pnew.product_id = pid) :
    get_product (ps ++ [pnew]) pid = some pnew := by
  induction ps with
  | nil => simp [get_product, hnew]
  | cons p rest ih =>
      have hp := h p (List.mem_cons_self p rest)
      simp only [get_product, List.cons_append, List.find?_cons] at *
      simp only [hp, decide_eq_true_eq, if_neg]
      simpa [hp] using ih (fun q hq => h q (List.mem_cons_of_mem p hq))

end InventoryManager

namespace BillingSystem

open InventoryManager

/-- The quantity held by the first cart line for `pid` (`0` when none). -/
def cartQty (cart : List OrderItem) (pid : String) : Int :=
  match cart.find? (fun item => item.product.product_id = pid) with
  | some item => item.quantity
  | none => 0

theorem cartMergeFirst_none_iff {cart : List OrderItem} {pid : String} {q : Int} :
    cartMergeFirst cart pid q = none ↔
      ∀ item ∈ cart, item.product.product_id ≠ pid := by
  induction cart with
  | nil => simp [cartMergeFirst]
  | cons item rest ih =>
      by_cases h : item.product.product_id = pid
      · simp [cartMergeFirst, h]
      · simp [cartMergeFirst, h, ih]

theorem cartQty_cons_ne {item : OrderItem} {rest : List OrderItem} {pid : String}
    (h : item.product.product_id ≠ pid) :
    cartQty (item :: rest) pid = cartQty rest pid := by
  simp [cartQty, List.find?_cons, h]

theorem cartQty_cons_eq {item : OrderItem} {rest : List OrderItem} {pid : String}
    (h : item.product.product_id = pid) :
    cartQty (item :: rest) pid = item.quantity := by
  simp [cartQty, List.find?_cons, h]

theorem cartMergeFirst_qty {cart : List OrderItem} {pid : String} {q : Int}
    {cart1 : List OrderItem} (hm : cartMergeFirst cart pid q = some cart1) :
    cartQty cart1 pid = cartQty cart pid + q := by
  induction cart generalizing cart1 with
  | nil => simp [cartMergeFirst] at hm
  | cons item rest ih =>
      by_cases h : item.product.product_id = pid
      · simp only [cartMergeFirst, h, if_pos] at hm
        obtain rfl := Option.some_injective _ hm
        simp [cartQty, List.find?_cons, h]
      · have hm2 : (cartMergeFirst rest pid q).map (fun x => item :: x) = some cart1 := by
          have hunf : cartMergeFirst (item :: rest) pid q =
              (cartMergeFirst rest pid q).map (fun x => item :: x) := by
            simp [cartMergeFirst, h]
          rw [← hunf]
          exact hm
        cases hrest : cartMergeFirst rest pid q with
        | none => rw [hrest] at hm2; exact absurd hm2 (by simp)
        | some rest1 =>
            rw [hrest] at hm2
            simp only [Option.map_some'] at hm2
            obtain rfl := Option.some_injective _ hm2
            rw [cartQty_cons_ne h, cartQty_cons_ne h, ih hrest]

theorem cartQty_append_new {cart : List OrderItem} {pid : String}
    (h : ∀ item ∈ cart, item.product.product_id ≠ pid) (p : Product)
    (hp : p.product_id = pid) (q : Int) :
    cartQty (cart ++ [OrderItem.make p q]) pid = q := by
  induction cart with
  | nil =>
      simpa [OrderItem.make] using
        @cartQty_cons_eq (OrderItem.make p q) [] pid hp
  | cons item rest ih =>
      have hi := h item (List.mem_cons_self item rest)
      rw [List.cons_append, cartQty_cons_ne hi]
      exact ih (fun j hj => h j (List.mem_cons_of_mem item hj))

theorem cartQty_eq_zero {cart : List OrderItem} {pid : String}
    (h : ∀ item ∈ cart, item.product.product_id ≠ pid) : cartQty cart pid = 0 := by
  have : cart.find? (fun item => item.product.product_id = pid) = none :=
    List.find?_eq_none.mpr (fun item hitem => by simpa using h item hitem)
  simp [cartQty, this]

end BillingSystem

namespace BillingSystem

open InventoryManager

theorem removeFromCartList_decrement {pre post : List OrderItem}
    {item : OrderItem} {pid : String} {q : Int}
    (hpid : item.product.product_id = pid)
    (hpre : ∀ j ∈ pre, j.product.product_id ≠ pid) (hq : q < item.quantity) :
    removeFromCartList (pre ++ item :: post) pid (some q) =
      (true, pre ++
        { item with
            quantity := item.quantity - q,
            total := item.product.price * (item.quantity - q) } :: post) := by
  induction pre with
  | nil =>
      simp only [List.nil_append, removeFromCartList, hpid, if_pos]
      rw [if_neg (not_le.mpr hq)]
  | cons j rest ih =>
      have hj := hpre j (List.mem_cons_self j rest)
      have ihr := ih (fun i hi => hpre i (List.mem_cons_of_mem j hi))
      have hstep : removeFromCartList ((j :: rest) ++ item :: post) pid (some q) =
          ((removeFromCartList (rest ++ item :: post) pid (some q)).1,
            j :: (removeFromCartList (rest ++ item :: post) pid (some q)).2) := by
        simp [removeFromCartList, hj]
      rw [hstep, ihr]
      simp

end BillingSystem

/-! ## Claim theorems -/

open InventoryManager BillingSystem

/-- Claim C4: `checkout` on an empty cart fails with `EmptyCart`, and with
`discount < 0` or `discount > subtotal` fails with `InvalidDiscount`; in
every failing case the returned state is exactly the input state — no Sale
is created, the sale history, catalog stock and cart are unchanged, and the
file-write counters do not move. -/
theorem C4_checkout_failure (st : BillingState) (d : ℚ) (now : Nat) :
    (st.cart = [] → checkout st d now = (.emptyCart, st)) ∧
    (st.cart ≠ [] → (d < 0 ∨ cartTotal st.cart < d) →
      checkout st d now = (.invalidDiscount, st)) := by
  constructor
  · intro h
    simp [checkout, h]
  · intro h hd
    simp [checkout, h, hd]

theorem C4_checkout_failure_witness :
    checkout ⟨[], [], [], 0, 0⟩ 0 0 = (.emptyCart, ⟨[], [], [], 0, 0⟩) ∧
    checkout ⟨[], [⟨⟨"P1", "W", 2, 5⟩, 1, 2⟩], [], 0, 0⟩ (-1) 0 =
      (.invalidDiscount, ⟨[], [⟨⟨"P1", "W", 2, 5⟩, 1, 2⟩], [], 0, 0⟩) :=
  ⟨(C4_checkout_failure ⟨[], [], [], 0, 0⟩ 0 0).1 rfl,
    (C4_checkout_failure ⟨[], [⟨⟨"P1", "W", 2, 5⟩, 1, 2⟩], [], 0, 0⟩ (-1) 0).2
      (by simp) (Or.inl (by norm_num))⟩

/-- Claim C6: on a non-empty cart with subtotal `s`, a percentage discount `v`
yields `s * v / 100` when `0 ≤ v ≤ 100` and `0` otherwise; a fixed discount
`v` yields `v` when `0 ≤ v ≤ s` and `0` otherwise; any other discount type
yields `0`. The source method only reads the cart, so it is embedded as a
pure function and cannot modify the cart. -/
theorem C6_apply_discount_spec (cart : List OrderItem) (v : ℚ)
    (h : cart ≠ []) :
    (0 ≤ v → v ≤ 100 →
      apply_discount cart "percentage" v = cartTotal cart * (v / 100)) ∧
    ((v < 0 ∨ 100 < v) → apply_discount cart "percentage" v = 0) ∧
    (0 ≤ v → v ≤ cartTotal cart → apply_discount cart "fixed" v = v) ∧
    ((v < 0 ∨ cartTotal cart < v) → apply_discount cart "fixed" v = 0) ∧
    (∀ t : String, t ≠ "percentage" → t ≠ "fixed" →
      apply_discount cart t v = 0) := by
  refine ⟨?_, ?_, ?_, ?_, ?_⟩
  · intro h0 h100
    have hno : ¬(v < 0 ∨ 100 < v) := by
      rw [not_or, not_lt, not_lt]
      exact ⟨h0, h100⟩
    simp [apply_discount, h, hno]
  · intro hbad
    simp [apply_discount, h, hbad]
  · intro h0 hs
    have hno : ¬(v < 0 ∨ cartTotal cart < v) := by
      rw [not_or, not_lt, not_lt]
      exact ⟨h0, hs⟩
    simp [apply_discount, h, hno]
  · intro hbad
    simp [apply_discount, h, hbad]
  · intro t ht1 ht2
    simp [apply_discount, h, ht1, ht2]

theorem C6_apply_discount_witness :
    apply_discount [⟨⟨"P1", "W", 50, 10⟩, 2, 100⟩] "percentage" 10 = 10 ∧
    apply_discount [⟨⟨"P1", "W", 50, 10⟩, 2, 100⟩] "percentage" 101 = 0 := by
  have h1 := C6_apply_discount_spec [⟨⟨"P1", "W", 50, 10⟩, 2, 100⟩] 10 (by simp)
  have h2 := C6_apply_discount_spec [⟨⟨"P1", "W", 50, 10⟩, 2, 100⟩] 101 (by simp)
  constructor
  · rw [h1.1 (by norm_num) (by norm_num)]
    norm_num [cartTotal]
  · exact h2.2.1 (Or.inr (by norm_num))

/-- Claim C7: for a fresh id, a price `> 0` and a stock `≥ 0`, `add_product`
succeeds and a following `get_product` returns a product with exactly the
supplied id, name, price and stock. -/
theorem C7_add_then_get (ps : List Product) (pid name : String) (price : ℚ)
    (qty : Int) (hfresh : hasProduct ps pid = false) (hprice : 0 < price)
    (hqty : 0 ≤ qty) :
    (add_product ps pid name price qty).1 = true ∧
    get_product (add_product ps pid name price qty).2 pid =
      some ⟨pid, name, price, qty⟩ := by
  have hnp : ¬price ≤ 0 := not_le.mpr hprice
  have hnq : ¬qty < 0 := not_lt.mpr hqty
  refine ⟨by simp [add_product, hfresh, hnp, hnq], ?_⟩
  have hps : (add_product ps pid name price qty).2 =
      ps ++ [⟨pid, name, price, qty⟩] := by
    simp [add_product, hfresh, hnp, hnq]
  rw [hps]
  exact get_product_append_new (hasProduct_false_iff.mp hfresh) _ rfl

theorem C7_add_then_get_witness :
    (add_product [] "P1" "Widget" 1 5).1 = true ∧
    get_product (add_product [] "P1" "Widget" 1 5).2 "P1" =
      some ⟨"P1", "Widget", 1, 5⟩ :=
  C7_add_then_get [] "P1" "Widget" 1 5 rfl (by norm_num) (by norm_num)

/-- Claim C8: `search_product` returns exactly the products of the catalog
whose lower-cased name contains the lower-cased keyword as a substring or
whose lower-cased id equals the lower-cased keyword; when no product
matches it returns the empty list (not an error). -/
theorem C8_search_spec (ps : List Product) (kw : String) :
    (∀ p, p ∈ search_product ps kw ↔
      p ∈ ps ∧ ((strLower kw).data <:+: (strLower p.name).data ∨
        strLower kw = strLower p.product_id)) ∧
    ((∀ p ∈ ps, ¬((strLower kw).data <:+: (strLower p.name).data ∨
        strLower kw = strLower p.product_id)) → search_product ps kw = []) := by
  have hmem : ∀ p, p ∈ search_product ps kw ↔
      p ∈ ps ∧ ((strLower kw).data <:+: (strLower p.name).data ∨
        strLower kw = strLower p.product_id) := by
    intro p
    simp [search_product, List.mem_filter, matchesKeyword]
  refine ⟨hmem, fun h => ?_⟩
  rw [List.eq_nil_iff_forall_not_mem]
  intro p hp
  exact h p ((hmem p).mp hp).1 ((hmem p).mp hp).2

theorem C8_search_spec_witness :
    search_product [⟨"P1", "Widget", 1, 5⟩] "zz" = [] :=
  (C8_search_spec [⟨"P1", "Widget", 1, 5⟩] "zz").2 (by decide)

/-- Claim C9: `add_to_cart` with a product id absent from the catalog returns
the not-found failure and leaves the whole state (in particular the cart)
unchanged, for every cart state and every quantity. -/
theorem C9_add_to_cart_absent (st : BillingState) (pid : String) (q : Int)
    (h : get_product st.products pid = none) :
    add_to_cart st pid q = (.notFound, st) := by
  simp [add_to_cart, h]

theorem C9_add_to_cart_absent_witness :
    add_to_cart ⟨[], [⟨⟨"P1", "W", 2, 5⟩, 1, 2⟩], [], 0, 0⟩ "P2" 3 =
      (.notFound, ⟨[], [⟨⟨"P1", "W", 2, 5⟩, 1, 2⟩], [], 0, 0⟩) :=
  C9_add_to_cart_absent ⟨[], [⟨⟨"P1", "W", 2, 5⟩, 1, 2⟩], [], 0, 0⟩ "P2" 3 rfl

/-- Claim C10: `remove_from_cart` applies no positivity check to a supplied
quantity: when the (first) cart line for `pid` holds quantity `n` and the
supplied `q` satisfies `q < n`, the call reports success and rewrites that
line to quantity `n - q` with total `price * (n - q)`; hence `q ≤ 0` leaves
the quantity unchanged or increases it. -/
theorem C10_remove_reduces (st : BillingState) (pre post : List OrderItem)
    (item : OrderItem) (pid : String) (q : Int)
    (hcart : st.cart = pre ++ item :: post)
    (hpid : item.product.product_id = pid)
    (hpre : ∀ j ∈ pre, j.product.product_id ≠ pid)
    (hq : q < item.quantity) :
    remove_from_cart st pid (some q) =
      (true, { st with
          cart := pre ++
            { item with
                quantity := item.quantity - q,
                total := item.product.price * (item.quantity - q) } :: post }) ∧
    (q ≤ 0 → item.quantity ≤ item.quantity - q) := by
  refine ⟨?_, fun h0 => by omega⟩
  simp [remove_from_cart, hcart, removeFromCartList_decrement hpid hpre hq]

theorem C10_remove_reduces_witness :
    remove_from_cart ⟨[], [⟨⟨"P1", "W", 2, 9⟩, 5, 10⟩], [], 0, 0⟩ "P1" (some 2) =
      (true, ⟨[], [⟨⟨"P1", "W", 2, 9⟩, 3, 6⟩], [], 0, 0⟩) := by
  have h := C10_remove_reduces ⟨[], [⟨⟨"P1", "W", 2, 9⟩, 5, 10⟩], [], 0, 0⟩ [] []
    ⟨⟨"P1", "W", 2, 9⟩, 5, 10⟩ "P1" 2 rfl rfl (by simp) (by norm_num)
  rw [h.1]
  norm_num

/-- Claim C2, amended: `add_to_cart` succeeds if and only if the product
exists, `q > 0` and `p.stock_quantity ≥ q` — the stock check is against
this call's quantity only, not the cumulative requested quantity; on
success the cart line for `p` ends up holding the previous cart quantity
plus `q`, which can therefore exceed `p.stock_quantity`. -/
theorem C2_add_to_cart_amended (st : BillingState) (pid : String) (q : Int) :
    ((add_to_cart st pid q).1 = .ok ↔
      ∃ p, get_product st.products pid = some p ∧ 0 < q ∧
        q ≤ p.stock_quantity) ∧
    ((add_to_cart st pid q).1 = .ok →
      cartQty (add_to_cart st pid q).2.cart pid = cartQty st.cart pid + q) := by
  cases hg : get_product st.products pid with
  | none =>
      have hadd : add_to_cart st pid q = (.notFound, st) := by
        simp [add_to_cart, hg]
      rw [hadd]
      refine ⟨⟨fun h => by simp at h, ?_⟩, fun h => by simp at h⟩
      rintro ⟨p, hp, -, -⟩
      cases hp
  | some product =>
      by_cases hq : q ≤ 0
      · have hadd : add_to_cart st pid q = (.invalidQuantity, st) := by
          simp [add_to_cart, hg, hq]
        rw [hadd]
        refine ⟨⟨fun h => by simp at h, ?_⟩, fun h => by simp at h⟩
        rintro ⟨p, hp, hq2, -⟩
        omega
      · by_cases hs : product.stock_quantity < q
        · have hadd : add_to_cart st pid q = (.insufficientStock, st) := by
            simp [add_to_cart, hg, hq, hs]
          rw [hadd]
          refine ⟨⟨fun h => by simp at h, ?_⟩, fun h => by simp at h⟩
          rintro ⟨p, hp, -, hle⟩
          obtain rfl : product = p := by
            simpa using hp
          omega
        · cases hm : cartMergeFirst st.cart pid q with
          | some cart1 =>
              have hadd : add_to_cart st pid q = (.ok, { st with cart := cart1 }) := by
                simp [add_to_cart, hg, hq, hs, hm]
              rw [hadd]
              refine ⟨⟨fun _ => ⟨product, rfl, by omega, by omega⟩, fun _ => rfl⟩, ?_⟩
              intro _
              simpa using cartMergeFirst_qty hm
          | none =>
              have hnone := cartMergeFirst_none_iff.mp hm
              have hadd : add_to_cart st pid q =
                  (.ok, { st with cart := st.cart ++ [OrderItem.make product q] }) := by
                simp [add_to_cart, hg, hq, hs, hm]
              rw [hadd]
              refine ⟨⟨fun _ => ⟨product, rfl, by omega, by omega⟩, fun _ => rfl⟩, ?_⟩
              intro _
              simp only
              rw [cartQty_eq_zero hnone,
                cartQty_append_new hnone product (get_product_eq_some_pid hg) q]
              simp

theorem C2_add_to_cart_amended_witness :
    (add_to_cart ⟨[⟨"P1", "W", 1, 5⟩], [], [], 0, 0⟩ "P1" 3).1 = .ok ∧
    cartQty (add_to_cart ⟨[⟨"P1", "W", 1, 5⟩], [], [], 0, 0⟩ "P1" 3).2.cart "P1" =
      cartQty ([] : List OrderItem) "P1" + 3 := by
  have h := C2_add_to_cart_amended ⟨[⟨"P1", "W", 1, 5⟩], [], [], 0, 0⟩ "P1" 3
  have hok : (add_to_cart ⟨[⟨"P1", "W", 1, 5⟩], [], [], 0, 0⟩ "P1" 3).1 = .ok :=
    h.1.mpr ⟨⟨"P1", "W", 1, 5⟩, by decide, by norm_num, by norm_num⟩
  exact ⟨hok, h.2 hok⟩

/-- Counterexample to claim C2: with stock 5 and 3 units of `P1` already in the
cart, a second `add_to_cart` of 3 more units succeeds (the code checks
`stock < q` for this call's `q` only), leaving a cart line of 6 units
although 5 < 3 + 3 — refuting the claimed cumulative-stock success
condition. -/
theorem C2_counterexample :
    (add_to_cart ⟨[⟨"P1", "W", 1, 5⟩], [⟨⟨"P1", "W", 1, 5⟩, 3, 3⟩], [], 0, 0⟩
        "P1" 3).1 = .ok ∧
    cartQty (add_to_cart ⟨[⟨"P1", "W", 1, 5⟩], [⟨⟨"P1", "W", 1, 5⟩, 3, 3⟩], [], 0, 0⟩
        "P1" 3).2.cart "P1" = 6 ∧
    (5 : Int) < 3 + 3 := by
  refine ⟨?_, ?_, by norm_num⟩ <;>
    norm_num [add_to_cart, get_product, cartMergeFirst, cartQty, OrderItem.make,
      List.find?]

/-- Claim C5, amended: `update_product` assigns supplied fields in source
order (name, then price, then stock), validating price and stock only
immediately before their own assignment. Hence on an invalid supplied
price (`≤ 0`) the call fails with price and stock unchanged but with a
simultaneously supplied name already applied; on an invalid supplied stock
(`< 0`) the call fails with stock unchanged but with a supplied name and a
valid supplied price already applied. On success, fields not supplied
retain their prior value. -/
theorem C5_update_product_amended (ps : List Product) (pid : String)
    (name : Option String) (p : Product)
    (hget : get_product ps pid = some p) :
    (∀ pr : ℚ, pr ≤ 0 → ∀ qty : Option Int,
      (update_product ps pid name (some pr) qty).1 = false ∧
      get_product (update_product ps pid name (some pr) qty).2 pid =
        some { p with name := name.getD p.name }) ∧
    (∀ qv : Int, qv < 0 →
      ((update_product ps pid name none (some qv)).1 = false ∧
        get_product (update_product ps pid name none (some qv)).2 pid =
          some { p with name := name.getD p.name }) ∧
      (∀ pr : ℚ, 0 < pr →
        (update_product ps pid name (some pr) (some qv)).1 = false ∧
        get_product (update_product ps pid name (some pr) (some qv)).2 pid =
          some { p with name := name.getD p.name, price := pr })) ∧
    (∀ price : Option ℚ, ∀ qty : Option Int,
      (∀ pr ∈ price, 0 < pr) → (∀ qv ∈ qty, 0 ≤ qv) →
      (update_product ps pid name price qty).1 = true ∧
      get_product (update_product ps pid name price qty).2 pid =
        some { p with
                name := name.getD p.name,
                price := price.getD p.price,
                stock_quantity := qty.getD p.stock_quantity }) := by
  have hpid := get_product_eq_some_pid hget
  have hmem := get_product_mem hget
  have hhas : hasProduct ps pid = true := hasProduct_of_mem hmem hpid
  have hget1 : get_product (match name with
      | some n => updProduct ps pid (fun r => { r with name := n })
      | none => ps) pid = some { p with name := name.getD p.name } := by
    cases name with
    | none => simpa using hget
    | some n =>
        rw [get_updProduct_self ps pid (fun r => { r with name := n })
          (fun r => rfl), hget]
        rfl
  refine ⟨?_, ?_, ?_⟩
  · intro pr hpr qty
    constructor
    · simp [update_product, hhas, hpr]
    · simp only [update_product, hhas, if_true, if_pos hpr]
      exact hget1
  · intro qv hqv
    refine ⟨⟨?_, ?_⟩, ?_⟩
    · simp [update_product, updateStockStep, hhas, hqv]
    · simp only [update_product, updateStockStep, hhas, if_true, if_pos hqv]
      exact hget1
    · intro pr hpr
      have hnle : ¬pr ≤ 0 := not_le.mpr hpr
      constructor
      · simp [update_product, updateStockStep, hhas, hnle, hqv]
      · simp only [update_product, updateStockStep, hhas, if_true, if_neg hnle,
          if_pos hqv]
        rw [get_updProduct_self _ pid (fun r => { r with price := pr })
          (fun r => rfl), hget1]
        rfl
  · intro price qty hpr hqv
    cases price with
    | none =>
        cases qty with
        | none =>
            constructor
            · simp [update_product, updateStockStep, hhas]
            · simp only [update_product, updateStockStep, hhas, if_true]
              simpa using hget1
        | some qv =>
            have hq : ¬qv < 0 := not_lt.mpr (hqv qv rfl)
            constructor
            · simp [update_product, updateStockStep, hhas, hq]
            · simp only [update_product, updateStockStep, hhas, if_true,
                if_neg hq]
              rw [get_updProduct_self _ pid
                (fun r => { r with stock_quantity := qv }) (fun r => rfl), hget1]
              rfl
    | some pr =>
        have hnle : ¬pr ≤ 0 := not_le.mpr (hpr pr rfl)
        cases qty with
        | none =>
            constructor
            · simp [update_product, updateStockStep, hhas, hnle]
            · simp only [update_product, updateStockStep, hhas, if_true,
                if_neg hnle]
              rw [get_updProduct_self _ pid (fun r => { r with price := pr })
                (fun r => rfl), hget1]
              rfl
        | some qv =>
            have hq : ¬qv < 0 := not_lt.mpr (hqv qv rfl)
            constructor
            · simp [update_product, updateStockStep, hhas, hnle, hq]
            · simp only [update_product, updateStockStep, hhas, if_true,
                if_neg hnle, if_neg hq]
              rw [get_updProduct_self _ pid
                (fun r => { r with stock_quantity := qv }) (fun r => rfl),
                get_updProduct_self _ pid (fun r => { r with price := pr })
                  (fun r => rfl), hget1]
              rfl

theorem C5_update_product_amended_witness :
    (update_product [⟨"P1", "Old", 1, 5⟩] "P1" (some "New") (some (-1)) none).1 =
      false ∧
    get_product
      (update_product [⟨"P1", "Old", 1, 5⟩] "P1" (some "New") (some (-1)) none).2
      "P1" = some ⟨"P1", "New", 1, 5⟩ :=
  (C5_update_product_amended [⟨"P1", "Old", 1, 5⟩] "P1" (some "New")
    ⟨"P1", "Old", 1, 5⟩ rfl).1 (-1) (by norm_num) none

/-- Counterexample to claim C5: `update_product` with a new name and an invalid
price `-1` returns failure yet has already overwritten the product's name
("Old" → "New"), refuting the claim that a failing update leaves the
record entirely unchanged. -/
theorem C5_counterexample :
    (update_product [⟨"P1", "Old", 1, 5⟩] "P1" (some "New") (some (-1)) none).1 =
      false ∧
    (update_product [⟨"P1", "Old", 1, 5⟩] "P1" (some "New") (some (-1)) none).2 =
      [⟨"P1", "New", 1, 5⟩] := by
  decide

/-- Claim C1: every successful checkout (non-empty cart, `0 ≤ discount ≤
subtotal`; the cart's product ids are distinct, as `add_to_cart` merges
duplicate lines, and every referenced product is still in the catalog, as
the source otherwise raises) returns a Sale whose subtotal is the sum of
the cart's line totals, appends that Sale to the sale history, reduces each
referenced catalog product's stock by exactly that line's quantity, and
leaves the cart empty. -/
theorem C1_checkout_success (st : BillingState) (d : ℚ) (now : Nat)
    (hne : st.cart ≠ []) (hd0 : 0 ≤ d) (hds : d ≤ cartTotal st.cart)
    (hnd : (st.cart.map (fun i => i.product.product_id)).Nodup)
    (hpresent : ∀ item ∈ st.cart,
      (get_product st.products item.product.product_id).isSome) :
    ∃ sale : Sale,
      (checkout st d now).1 = .success sale ∧
      sale.total_amount = cartTotal st.cart ∧
      sale.items = st.cart ∧
      sale.discount = d ∧
      sale.final_amount = cartTotal st.cart - d ∧
      (checkout st d now).2.sales = st.sales ++ [sale] ∧
      (checkout st d now).2.cart = [] ∧
      (∀ item ∈ st.cart, ∀ p,
        get_product st.products item.product.product_id = some p →
        get_product (checkout st d now).2.products item.product.product_id =
          some { p with stock_quantity := p.stock_quantity - item.quantity }) := by
  have hcond : ¬(d < 0 ∨ cartTotal st.cart < d) := by
    rw [not_or, not_lt, not_lt]
    exact ⟨hd0, hds⟩
  have heq : checkout st d now =
      (.success (Sale.make st.cart (cartTotal st.cart) now d),
        { products := decrementStock st.products st.cart,
          cart := [],
          sales := st.sales ++ [Sale.make st.cart (cartTotal st.cart) now d],
          saleWrites := st.saleWrites + 1,
          invWrites := st.invWrites + 1 }) := by
    simp [checkout, hne, hcond]
  refine ⟨Sale.make st.cart (cartTotal st.cart) now d,
    by rw [heq], rfl, rfl, rfl, rfl, by rw [heq], by rw [heq], ?_⟩
  intro item hitem p hp
  rw [heq]
  simp only
  rw [get_decrementStock, hp, qtyFor_of_nodup hnd hitem]
  rfl

theorem C1_checkout_success_witness :
    ∃ sale : Sale,
      (checkout ⟨[⟨"P1", "W", 1, 5⟩], [⟨⟨"P1", "W", 1, 5⟩, 3, 3⟩], [], 0, 0⟩
        0 0).1 = .success sale ∧
      sale.total_amount = 3 ∧
      get_product
        (checkout ⟨[⟨"P1", "W", 1, 5⟩], [⟨⟨"P1", "W", 1, 5⟩, 3, 3⟩], [], 0, 0⟩
          0 0).2.products "P1" = some ⟨"P1", "W", 1, 2⟩ := by
  obtain ⟨sale, h1, h2, -, -, -, -, -, h8⟩ :=
    C1_checkout_success ⟨[⟨"P1", "W", 1, 5⟩], [⟨⟨"P1", "W", 1, 5⟩, 3, 3⟩], [], 0, 0⟩
      0 0 (by simp) (by norm_num) (by norm_num [cartTotal]) (by simp)
      (by decide)
  refine ⟨sale, h1, by rw [h2]; norm_num [cartTotal], ?_⟩
  have h9 := h8 ⟨⟨"P1", "W", 1, 5⟩, 3, 3⟩ (by simp) ⟨"P1", "W", 1, 5⟩ (by decide)
  simpa using h9

/-- Claim C3, amended: the inventory operations (`add_product`,
`update_product`, `delete_product`) preserve non-negativity of every
product's `stock_quantity`, and the cart operations never touch the
catalog; `checkout` preserves non-negativity provided every cart line's
quantity is at most the matching product's current stock — a bound the
`add_to_cart` per-call stock check fails to guarantee for merged lines, so
a successful checkout *can* drive a stock below 0 (see the
counterexample). -/
theorem C3_stock_nonneg_amended :
    (∀ ps pid name price qty, stocksNonneg ps →
      stocksNonneg (add_product ps pid name price qty).2) ∧
    (∀ ps pid name price qty, stocksNonneg ps →
      stocksNonneg (update_product ps pid name price qty).2) ∧
    (∀ ps pid, stocksNonneg ps → stocksNonneg (delete_product ps pid).2) ∧
    (∀ st pid q, (add_to_cart st pid q).2.products = st.products) ∧
    (∀ st pid q, (remove_from_cart st pid q).2.products = st.products) ∧
    (∀ st d now, stocksNonneg st.products →
      (st.cart.map (fun i => i.product.product_id)).Nodup →
      (∀ item ∈ st.cart, ∀ p ∈ st.products,
        p.product_id = item.product.product_id →
        item.quantity ≤ p.stock_quantity) →
      stocksNonneg (checkout st d now).2.products) := by
  have hstock : ∀ ps pid qty, stocksNonneg ps →
      stocksNonneg (updateStockStep ps pid qty).2 := by
    intro ps pid qty hnn
    cases qty with
    | none => exact hnn
    | some q =>
        by_cases hq : q < 0
        · simpa [updateStockStep, hq] using hnn
        · simp only [updateStockStep, if_neg hq]
          exact stocksNonneg_updProduct hnn
            (fun r _ => by show (0 : Int) ≤ q; omega)
  refine ⟨?_, ?_, ?_, ?_, ?_, ?_⟩
  · intro ps pid name price qty hnn
    unfold add_product
    split_ifs with h1 h2 h3
    · exact hnn
    · exact hnn
    · exact hnn
    · intro p hp
      rcases List.mem_append.mp hp with h | h
      · exact hnn p h
      · have : p = ⟨pid, name, price, qty⟩ := by simpa using h
        subst this
        simpa using not_lt.mp h3
  · intro ps pid name price qty hnn
    by_cases hhas : hasProduct ps pid
    · have hnn1 : stocksNonneg (match name with
          | some n => updProduct ps pid (fun r => { r with name := n })
          | none => ps) := by
        cases name with
        | none => exact hnn
        | some n => exact stocksNonneg_updProduct hnn (fun r h => h)
      cases price with
      | none =>
          simp only [update_product, hhas, if_true]
          exact hstock _ pid qty hnn1
      | some pr =>
          by_cases hpr : pr ≤ 0
          · simpa [update_product, hhas, hpr] using hnn1
          · simp only [update_product, hhas, if_true, if_neg hpr]
            exact hstock _ pid qty
              (stocksNonneg_updProduct hnn1 (fun r h => h))
    · simpa [update_product, hhas] using hnn
  · intro ps pid hnn
    by_cases hhas : hasProduct ps pid
    · intro p hp
      simp only [delete_product, hhas, if_true] at hp
      exact hnn p (List.mem_of_mem_filter hp)
    · simpa [delete_product, hhas] using hnn
  · intro st pid q
    cases hg : get_product st.products pid with
    | none => simp [add_to_cart, hg]
    | some product =>
        by_cases hq : q ≤ 0
        · simp [add_to_cart, hg, hq]
        · by_cases hs : product.stock_quantity < q
          · simp [add_to_cart, hg, hq, hs]
          · cases hm : cartMergeFirst st.cart pid q <;>
              simp [add_to_cart, hg, hq, hs, hm]
  · intro st pid q
    rfl
  · intro st d now hnn hnd hbound
    by_cases hne : st.cart = []
    · simpa [checkout, hne] using hnn
    · by_cases hd : d < 0 ∨ cartTotal st.cart < d
      · simpa [checkout, hne, hd] using hnn
      · have heq : (checkout st d now).2.products =
            decrementStock st.products st.cart := by
          simp [checkout, hne, hd]
        rw [heq]
        exact decrementStock_nonneg hnn hnd hbound

theorem C3_stock_nonneg_amended_witness :
    stocksNonneg (add_product [] "P1" "W" 1 5).2 ∧
    stocksNonneg
      (checkout ⟨[⟨"P1", "W", 1, 5⟩], [⟨⟨"P1", "W", 1, 5⟩, 3, 3⟩], [], 0, 0⟩
        0 0).2.products :=
  ⟨C3_stock_nonneg_amended.1 [] "P1" "W" 1 5 (by decide),
    C3_stock_nonneg_amended.2.2.2.2.2
      ⟨[⟨"P1", "W", 1, 5⟩], [⟨⟨"P1", "W", 1, 5⟩, 3, 3⟩], [], 0, 0⟩ 0 0
      (by decide) (by simp) (by decide)⟩

/-- Counterexample to claim C3: starting from the empty catalog, the public
operations `add_product P1` (stock 5), `add_to_cart P1 3` twice (both
succeed — the merge path re-checks only the per-call quantity) and
`checkout` produce a state in which `P1`'s `stock_quantity` is `-1`,
refuting the claim that stock stays non-negative in all reachable
states. -/
theorem C3_counterexample :
    get_product
      (checkout
        (add_to_cart
          (add_to_cart ⟨(add_product [] "P1" "W" 1 5).2, [], [], 0, 0⟩
            "P1" 3).2
          "P1" 3).2
        0 0).2.products "P1" = some ⟨"P1", "W", 1, -1⟩ ∧
    ¬stocksNonneg
      (checkout
        (add_to_cart
          (add_to_cart ⟨(add_product [] "P1" "W" 1 5).2, [], [], 0, 0⟩
            "P1" 3).2
          "P1" 3).2
        0 0).2.products := by
  have heq : (checkout
      (add_to_cart
        (add_to_cart ⟨(add_product [] "P1" "W" 1 5).2, [], [], 0, 0⟩
          "P1" 3).2
        "P1" 3).2
      0 0).2.products = [⟨"P1", "W", 1, -1⟩] := by
    norm_num [checkout, add_to_cart, add_product, hasProduct, get_product,
      cartMergeFirst, OrderItem.make, cartTotal, decrementStock, updProduct,
      Sale.make, List.find?]
  rw [heq]
  constructor
  · decide
  · intro hnn
    have := hnn ⟨"P1", "W", 1, -1⟩ (by simp)
    simp at this
